import Mathlib

/-!
# fea-rs compilation context: verification of spec claims

A shallow embedding, in Lean 4, of the parts of the fea-rs OpenType feature
compiler (`src/compile/compile_ctx.rs`, `src/compile/valuerecordext.rs`)
needed to settle the frozen claims.  Pure Rust functions become Lean
functions; the mutable `CompilationCtx` becomes explicit state passing on
small state structures.  Types that live in modules of the repository that
are not part of the provided sources (`lookups.rs`, `features.rs`,
`common`), or in the external `write_fonts` crate, are modelled after the
specification's description of them; each such definition is marked in its
doc comment.
-/

namespace FeaRs

/-- A glyph id: a 16-bit index into the font's glyph order (spec §3).
Width plays no role in the verified claims, so we use `Nat`. -/
abbrev GlyphId := Nat

/-- A 4-byte OpenType tag (spec §3); modelled as a string. -/
abbrev Tag := String

/-! ## Value records (`src/compile/valuerecordext.rs`)

`ValueRecord` itself comes from the external `write_fonts` crate: four
optional signed numeric fields plus four nullable device-table offsets.
The functions under test never read or write the *contents* of a device
table, only whether one is present (via `ValueRecord::format`), so each
device offset is modelled by a `Bool` recording whether it is set. -/

structure ValueRecord where
  x_placement : Option Int
  y_placement : Option Int
  x_advance : Option Int
  y_advance : Option Int
  x_placement_device : Bool
  y_placement_device : Bool
  x_advance_device : Bool
  y_advance_device : Bool
deriving DecidableEq, Repr

namespace ValueRecord

/-- The all-`None` record: `ValueRecord::default()` in `write_fonts`. -/
def empty : ValueRecord := ⟨none, none, none, none, false, false, false, false⟩

/-- `ValueRecord::format(..).is_empty()`: the computed `ValueFormat` has no
bit set exactly when no field (numeric or device) is present. -/
def format_is_empty (r : ValueRecord) : Bool :=
  r.x_placement.isNone && r.y_placement.isNone &&
  r.x_advance.isNone && r.y_advance.isNone &&
  !r.x_placement_device && !r.y_placement_device &&
  !r.x_advance_device && !r.y_advance_device

/-- `ValueRecord::format(..).intersects(device_mask)`: some device field set. -/
def has_device (r : ValueRecord) : Bool :=
  r.x_placement_device || r.y_placement_device ||
  r.x_advance_device || r.y_advance_device

/-- `ValueRecordExt::clear_zeros` (`valuerecordext.rs`, lines 12–30):
each numeric field equal to `Some(0)` is reset to `None`. -/
def clear_zeros (r : ValueRecord) : ValueRecord :=
  { r with
    x_placement := if r.x_placement = some 0 then none else r.x_placement
    y_placement := if r.y_placement = some 0 then none else r.y_placement
    x_advance := if r.x_advance = some 0 then none else r.x_advance
    y_advance := if r.y_advance = some 0 then none else r.y_advance }

/-- `ValueRecordExt::is_all_zeros` (`valuerecordext.rs`, lines 33–50):
`false` if the format is empty or a device field is present, otherwise
`true` iff every present numeric field is zero. -/
def is_all_zeros (r : ValueRecord) : Bool :=
  if r.format_is_empty || r.has_device then false
  else
    [r.x_placement, r.y_placement, r.x_advance, r.y_advance].all
      (fun v => v.getD 0 == 0)

/-- `ValueRecordExt::for_pair_pos` (`valuerecordext.rs`, lines 57–68). -/
def for_pair_pos (r : ValueRecord) (in_vert_feature : Bool) : ValueRecord :=
  if !r.is_all_zeros then r.clear_zeros
  else
    let out := r.clear_zeros
    if in_vert_feature then { out with y_advance := some 0 }
    else { out with x_advance := some 0 }

/-- The record whose only set field is a zero advance on the dominant axis
(spec glossary, "Pair-pos zero"). -/
def zero_advance_record (vert : Bool) : ValueRecord :=
  if vert then { empty with y_advance := some 0 }
  else { empty with x_advance := some 0 }

/-- The claim's side condition, written from the claim's words ("R has any
non-zero field", used only to refute the claim): some numeric field is set
to a non-zero value, or some device table is present. -/
def has_any_nonzero_field (r : ValueRecord) : Bool :=
  ([r.x_placement, r.y_placement, r.x_advance, r.y_advance].any
    (fun v => match v with | some n => n != 0 | none => false)) || r.has_device

end ValueRecord

/-! ## Lookup ids and feature keys

`LookupId` and `FeatureKey` live in `lookups.rs`, which is not among the
provided sources; they are modelled from the spec (§3): a lookup id is a
tagged variant {GSUB(u32), GPOS(u32), Empty}, ids assigned densely per
table in allocation order, and a feature key is a (script, language,
feature tag) triple.  (The spec also names an external-named variant; it
plays no role in any claim and is omitted.)  The derived Rust `Ord` on such
an enum compares the variant first, then the payload. -/

inductive LookupId
  | gsub (n : Nat)
  | gpos (n : Nat)
  | empty
deriving DecidableEq, Repr

namespace LookupId

/-- Discriminant of the variant, in declaration order. -/
def variantIdx : LookupId → Nat
  | .gsub _ => 0
  | .gpos _ => 1
  | .empty => 2

/-- Payload of the variant (0 for `empty`). -/
def idx : LookupId → Nat
  | .gsub n => n
  | .gpos n => n
  | .empty => 0

/-- The derived ordering: lexicographic on (variant, payload). -/
def le (a b : LookupId) : Prop :=
  a.variantIdx < b.variantIdx ∨ (a.variantIdx = b.variantIdx ∧ a.idx ≤ b.idx)

instance : DecidableRel le := fun a b => by
  unfold le; infer_instance

instance : IsTotal LookupId le := by
  constructor; intro a b; unfold le; omega

instance : IsTrans LookupId le := by
  constructor; intro a b c hab hbc; unfold le at *; omega

end LookupId

structure FeatureKey where
  script : Tag
  language : Tag
  feature : Tag
deriving DecidableEq, Repr

/-! ## Adjacent deduplication (Rust `Vec::dedup`)

`Vec::dedup` removes *consecutive* repeated elements, keeping the first of
each run. -/

def dedupConsec {α : Type} [DecidableEq α] : List α → List α
  | [] => []
  | [a] => [a]
  | a :: b :: rest =>
    if a = b then dedupConsec (b :: rest) else a :: dedupConsec (b :: rest)

/-! ## `sort_and_dedupe_lookups` (`compile_ctx.rs`, lines 133–142)

The features map (`BTreeMap<FeatureKey, Vec<LookupId>>`) is modelled as an
association list.  For every value the source runs `sort_unstable()` then
`dedup()`; `sort_unstable` is modelled by insertion sort, which agrees with
every comparison sort for the linear order `LookupId.le`. -/

def sort_and_dedupe_lookups (features : List (FeatureKey × List LookupId)) :
    List (FeatureKey × List LookupId) :=
  features.map fun kv => (kv.1, dedupConsec (List.insertionSort LookupId.le kv.2))

/-- The deduplication the claim describes — duplicates removed, first
occurrences kept in insertion order.  Written from the claim's words; used
only to refute the claim. -/
def dedupKeepOrderAux (seen : List LookupId) : List LookupId → List LookupId
  | [] => []
  | x :: rest =>
    if x ∈ seen then dedupKeepOrderAux seen rest
    else x :: dedupKeepOrderAux (x :: seen) rest

def dedupKeepOrder (l : List LookupId) : List LookupId :=
  dedupKeepOrderAux [] l

/-! ## Glyphs, classes, and single substitution
(`compile_ctx.rs`, lines 499–560)

`GlyphOrClass` lives in the `common` module, which is not among the
provided sources; it is modelled from the spec (§3): the tagged union
{single glyph, class, null}, a class being an ordered multiset of glyph
ids. -/

inductive GlyphOrClass
  | glyph (g : GlyphId)
  | cls (gs : List GlyphId)
  | null
deriving DecidableEq, Repr

namespace GlyphOrClass

/-- `GlyphOrClass::iter`: the glyph ids named, in source order.  Modelled
from the spec: a single glyph yields itself, a class its members in order,
null nothing. -/
def iter : GlyphOrClass → List GlyphId
  | .glyph g => [g]
  | .cls gs => gs
  | .null => []

/-- `GlyphOrClass::is_null`. -/
def is_null : GlyphOrClass → Bool
  | .null => true
  | _ => false

/-- `GlyphOrClass::len`, as used by the class-length check. -/
def len : GlyphOrClass → Nat
  | .glyph _ => 1
  | .cls gs => gs.length
  | .null => 0

/-- Modelled from the spec: the replacement-side iterator
(`into_iter_for_target`) zipped against a target's glyphs — a single
replacement glyph repeats for every target glyph (class-by-glyph
substitution), a class pairs up memberwise, null yields nothing. -/
def zip_for_target (target replacement : GlyphOrClass) :
    List (GlyphId × GlyphId) :=
  match replacement with
  | .glyph g => target.iter.map (fun t => (t, g))
  | .cls gs => target.iter.zip gs
  | .null => []

end GlyphOrClass

/-- One GSUB rule as recorded by the typed subtable builders: only the two
shapes reachable from `add_single_sub` are needed. -/
inductive GsubRule
  | type1 (target replacement : GlyphId)
  | type2 (target : GlyphId) (replacement : List GlyphId)
deriving DecidableEq, Repr

/-- The slice of `CompilationCtx` state that `add_single_sub` touches: the
diagnostic list and the rules accumulated in the current lookup. -/
structure SubState where
  errors : List String
  rules : List GsubRule
deriving DecidableEq, Repr

def mismatchMsg (c1Len c2Len : Nat) : String :=
  "class has different length (" ++ toString c1Len ++
    ") than target (" ++ toString c2Len ++ ")"

/-- `validate_single_sub_inputs` (`compile_ctx.rs`, lines 529–560), with
the glyph references already resolved (`resolve_glyph_or_class` is name
lookup, orthogonal to this logic; an absent replacement resolves to
null). -/
def validate_single_sub_inputs (target : GlyphOrClass)
    (replace : Option GlyphOrClass) (st : SubState) :
    Option (GlyphOrClass × GlyphOrClass) × SubState :=
  let replace_ids := replace.getD .null
  match target, replace_ids with
  | .null, _ =>
    (none, { st with errors :=
      st.errors ++ ["NULL is not a valid substitution target"] })
  | .glyph _, .cls _ =>
    (none, { st with errors := st.errors ++ ["cannot sub glyph by glyph class"] })
  | .cls c1, .cls c2 =>
    if c1.length ≠ c2.length then
      (none, { st with errors :=
        st.errors ++ [mismatchMsg c1.length c2.length] })
    else (some (.cls c1, .cls c2), st)
  | t, r => (some (t, r), st)

/-- `add_single_sub` (`compile_ctx.rs`, lines 499–519): a null replacement
emits GSUB type-2 rules with an empty replacement sequence (the
delete-glyph idiom); otherwise type-1 rules, targets zipped with the
replacement iterator. -/
def add_single_sub (target : GlyphOrClass) (replace : Option GlyphOrClass)
    (st : SubState) : SubState :=
  match validate_single_sub_inputs target replace st with
  | (none, st') => st'
  | (some (t, r), st') =>
    if r.is_null then
      { st' with rules := st'.rules ++ t.iter.map (fun g => .type2 g []) }
    else
      { st' with rules := st'.rules ++
          (GlyphOrClass.zip_for_target t r).map (fun p => .type1 p.1 p.2) }

/-! ## The sequence enumerator (`compile_ctx.rs`, lines 1768–1792) -/

/-- `sequence_enumerator_impl`: for each glyph of `left` (in class order),
extend the prefix and either recurse into the rest of the sequence or emit
the finished tuple.  The Rust accumulator argument becomes the returned
list; the loop's append order is the `flatMap` order. -/
def sequence_enumerator_impl (pfx : List GlyphId) (left : GlyphOrClass) :
    List GlyphOrClass → List (List GlyphId)
  | [] => left.iter.map (fun glyph => pfx ++ [glyph])
  | head :: tail =>
    left.iter.flatMap (fun glyph =>
      sequence_enumerator_impl (pfx ++ [glyph]) head tail)

/-- `sequence_enumerator`: split off the first element and run the
recursion with an empty prefix.  The source asserts `sequence.len() >= 2`;
the claim theorem carries that as a hypothesis and the empty case is
unreachable there. -/
def sequence_enumerator (sequence : List GlyphOrClass) : List (List GlyphId) :=
  match sequence with
  | left :: right => sequence_enumerator_impl [] left right
  | [] => []

/-- The enumeration the spec describes (glossary, "Sequence enumerator"),
written from the spec's words: the cartesian product of the classes
listing tuples in lexicographic order — the first position varies slowest
and members appear in their class's source order.  Used to compare the
source's enumerator against. -/
def spec_cartesian : List GlyphOrClass → List (List GlyphId)
  | [] => [[]]
  | c :: rest => c.iter.flatMap (fun g => (spec_cartesian rest).map (g :: ·))

/-! ## Backtrack and lookahead resolution
(`compile_ctx.rs`, lines 1706–1720)

Resolution of a glyph-or-class node reads and mutates the compilation
context (glyph map lookups, error diagnostics); the context is abstracted
as a state `σ` threaded left to right, and the resolver
(`resolve_glyph_or_class`) as a state-passing function. -/

def resolve_lookahead_sequence {σ τ : Type} (resolve : σ → τ → GlyphOrClass × σ) :
    σ → List τ → List GlyphOrClass × σ
  | st, [] => ([], st)
  | st, x :: rest =>
    let r := resolve st x
    let rest' := resolve_lookahead_sequence resolve r.2 rest
    (r.1 :: rest'.1, rest'.2)

/-- `resolve_backtrack_sequence`: resolve like a lookahead sequence, then
reverse the result in place. -/
def resolve_backtrack_sequence {σ τ : Type} (resolve : σ → τ → GlyphOrClass × σ)
    (st : σ) (seq : List τ) : List GlyphOrClass × σ :=
  let r := resolve_lookahead_sequence resolve st seq
  (r.1.reverse, r.2)

/-! ## Association-list model of the hash/tree maps

`CompilationCtx` keeps several maps (`HashMap`, `BTreeMap`).  They are
modelled as association lists; `assocFind` is map lookup. -/

def assocFind {α β : Type} [DecidableEq α] (k : α) : List (α × β) → Option β
  | [] => none
  | (k', v) :: rest => if k' = k then some v else assocFind k rest

/-! ## Mark attachment classes and filtering sets
(`compile_ctx.rs`, lines 423–445) -/

/-- `GlyphClass::sort_and_dedupe` (`common`, not under src/): modelled from
the spec (§3, glossary): the sorted, duplicate-free variant of a glyph
class, used for set-semantic purposes (mark-filter / mark-attachment). -/
def sortAndDedupeClass (gs : List GlyphId) : List GlyphId :=
  dedupConsec (List.insertionSort (· ≤ ·) gs)

/-- `resolve_mark_attach_class` (lines 423–435): an already-seen sorted set
keeps its id; a new one is assigned `self.mark_attach_class_id.len() as u16
+ 1` — the `as u16` cast truncates to 16 bits and the `u16` addition wraps
(release semantics), modelled as arithmetic mod 2^16.  Ids therefore start
at 1 and stay dense only while the map holds fewer than 2^16 − 1
classes. -/
def resolve_mark_attach_class (glyphs : List GlyphId)
    (st : List (List GlyphId × Nat)) : Nat × List (List GlyphId × Nat) :=
  let mark_set := sortAndDedupeClass glyphs
  match assocFind mark_set st with
  | some id => (id, st)
  | none =>
    let id := (st.length % 65536 + 1) % 65536
    (id, st ++ [(mark_set, id)])

/-- `resolve_mark_filter_set` (lines 437–445): `let id = len;
entry(set).or_insert_with(|| id.try_into().unwrap())` — an already-seen
sorted set keeps its id, a new one is assigned `len` (ids start at 0); the
`try_into::<u16>().unwrap()` panics once the map already holds 2^16 sets,
modelled as `none`. -/
def resolve_mark_filter_set (glyphs : List GlyphId)
    (st : List (List GlyphId × Nat)) :
    Option (Nat × List (List GlyphId × Nat)) :=
  let set := sortAndDedupeClass glyphs
  let id := st.length
  match assocFind set st with
  | some prev => some (prev, st)
  | none => if id < 65536 then some (id, st ++ [(set, id)]) else none

/-- The mark-attachment map after 2^16 − 1 distinct singleton classes
`[0] … [65534]` have been observed: ids 1 … 65535, still dense from 1.
Input to the C10 counterexample — the next fresh class wraps. -/
def bigAttachState : List (List GlyphId × Nat) :=
  (List.range 65535).map (fun i => ([i], i + 1))

/-- Dense id assignment: in first-observation order the stored ids are
`start, start+1, start+2, …`. -/
def denseFrom (start : Nat) (st : List (List GlyphId × Nat)) : Prop :=
  st.map Prod.snd = (List.range st.length).map (· + start)

/-! ## Language systems, lookups state, and `set_script`
(`compile_ctx.rs`, lines 345–377)

`LanguageSystem`, `LookupFlagInfo`, `SomeLookup` and `AllLookups` live in
`language_system.rs` / `lookups.rs`, which are not among the provided
sources; they are modelled from the spec (§3, §4.4, §4.5). -/

structure LanguageSystem where
  script : Tag
  language : Tag
deriving DecidableEq, Repr

def LanguageSystem.to_feature_key (sys : LanguageSystem) (feature : Tag) :
    FeatureKey :=
  ⟨sys.script, sys.language, feature⟩

/-- The kind of a lookup: one of the nine concrete GSUB/GPOS types
(spec §3); only the table side matters for the settled claims. -/
inductive LookupKind
  | gsubType (n : Nat)
  | gposType (n : Nat)
deriving DecidableEq, Repr

/-- Lookup flags plus the optional mark-filtering set (spec §3). -/
structure LookupFlagInfo where
  flags : Nat
  mark_filter_set : Option Nat
deriving DecidableEq, Repr

/-- `LookupFlagInfo::clear`: empty flags, no filtering set. -/
def LookupFlagInfo.clear_value : LookupFlagInfo := ⟨0, none⟩

/-- A lookup under construction; its accumulated subtables are irrelevant
to the settled claims and elided. -/
structure SomeLookup where
  kind : LookupKind
  flags : LookupFlagInfo
  name : Option String
deriving DecidableEq, Repr

/-- Modelled from the spec §4.4: the lookup store owns an optional current
lookup and one dense vector per table. -/
structure AllLookups where
  current : Option SomeLookup
  gsub : List SomeLookup
  gpos : List SomeLookup
deriving DecidableEq, Repr

/-- Modelled from the spec §4.4 ("Finalize current: emit the lookup, return
its id"): the current lookup, if present, is pushed onto its table's dense
vector; its id is the new index. -/
def AllLookups.finish_current (l : AllLookups) :
    Option (LookupId × Option String) × AllLookups :=
  match l.current with
  | none => (none, l)
  | some cur =>
    match cur.kind with
    | .gposType _ =>
      (some (.gpos l.gpos.length, cur.name),
       { l with current := none, gpos := l.gpos ++ [cur] })
    | .gsubType _ =>
      (some (.gsub l.gsub.length, cur.name),
       { l with current := none, gsub := l.gsub ++ [cur] })

/-- Modelled from the spec §4.5: the active feature tracks its tag, the
current language system, and the lookup ids added so far under each
system. -/
structure ActiveFeature where
  tag : Tag
  current_system : LanguageSystem
  pending : List (LanguageSystem × LookupId)
deriving DecidableEq, Repr

/-- Modelled from the spec §4.5: `ActiveFeature::set_system` switches the
current system and yields the corresponding feature key.  (The
dflt-inheritance bookkeeping is internal to `features.rs` and is not
touched by the settled claims.) -/
def ActiveFeature.set_system (af : ActiveFeature) (sys : LanguageSystem)
    (_exclude_dflt : Bool) : FeatureKey × ActiveFeature :=
  (⟨sys.script, sys.language, af.tag⟩, { af with current_system := sys })

/-- `ActiveFeature::add_lookup`: record a lookup id under the current
system. -/
def ActiveFeature.add_lookup (af : ActiveFeature) (id : LookupId) :
    ActiveFeature :=
  { af with pending := af.pending ++ [(af.current_system, id)] }

/-- The slice of `CompilationCtx` state that `set_script` reads or
writes. -/
structure ScriptCtx where
  script : Option Tag
  lookup_flags : LookupFlagInfo
  lookups : AllLookups
  active_feature : Option ActiveFeature
  required_features : List FeatureKey
deriving DecidableEq, Repr

/-- `add_lookup_to_current_feature_if_present` (lines 465–471). -/
def ScriptCtx.add_lookup_to_current_feature_if_present (ctx : ScriptCtx)
    (id : LookupId) : ScriptCtx :=
  if id = .empty then ctx
  else
    match ctx.active_feature with
    | some active => { ctx with active_feature := some (active.add_lookup id) }
    | none => ctx

/-- `set_script_language` (lines 357–377).  The source unwraps the active
feature (validated upstream); absence is modelled as `none`. -/
def ScriptCtx.set_script_language (ctx : ScriptCtx) (script language : Tag)
    (exclude_dflt required : Bool) : Option ScriptCtx :=
  let system : LanguageSystem := ⟨script, language⟩
  let fin := ctx.lookups.finish_current
  let ctx1 := { ctx with lookups := fin.2 }
  let ctx2 := match fin.1 with
    | some (id, _) => ctx1.add_lookup_to_current_feature_if_present id
    | none => ctx1
  match ctx2.active_feature with
  | none => none
  | some af =>
    let ks := af.set_system system exclude_dflt
    let ctx3 := { ctx2 with active_feature := some ks.2 }
    some (if required
      then { ctx3 with required_features := ctx3.required_features ++ [ks.1] }
      else ctx3)

/-- `set_script` (lines 345–355): a repeated script tag returns before any
state is touched; otherwise the script is recorded, flags cleared, and
`set_script_language(script, dflt, false, false)` runs. -/
def ScriptCtx.set_script (ctx : ScriptCtx) (script : Tag) : Option ScriptCtx :=
  if some script = ctx.script then some ctx
  else
    let ctx1 := { ctx with script := some script,
                           lookup_flags := LookupFlagInfo.clear_value }
    ctx1.set_script_language script "dflt" false false

/-! ## `aalt` finalization (`compile_ctx.rs`, lines 144–192) -/

/-- `LookupId::adjust_if_gsub` — modelled from the spec §3: GSUB ids are
shifted by the number of inserted aalt lookups; everything else is
unaffected. -/
def LookupId.adjust_if_gsub : LookupId → Nat → LookupId
  | .gsub n, delta => .gsub (n + delta)
  | other, _ => other

/-- `BTreeMap::insert` on the association-list model: replaces the value
under an existing key, appends otherwise. -/
def features_insert (k : FeatureKey) (v : List LookupId) :
    List (FeatureKey × List LookupId) → List (FeatureKey × List LookupId)
  | [] => [(k, v)]
  | (k', v') :: rest =>
    if k' = k then (k, v) :: rest else (k', v') :: features_insert k v rest

/-- `AllLookups::insert_aalt_lookups` — modelled from the spec §4.6 step 3:
the materialized aalt lookups are inserted as a contiguous block at the
front of the GSUB lookup list; the returned ids are the fresh front
indices. -/
def insert_aalt_lookups (newLookups gsubList : List SomeLookup) :
    List SomeLookup × List LookupId :=
  (newLookups ++ gsubList, (List.range newLookups.length).map LookupId.gsub)

def AALT : Tag := "aalt"

/-- The slice of `CompilationCtx` state that aalt finalization touches. -/
structure AaltCtx where
  features : List (FeatureKey × List LookupId)
  lookups : AllLookups
  default_lang_systems : List LanguageSystem
deriving DecidableEq, Repr

/-- The materialization tail of `finalize_aalt` (lines 171–191): insert the
built aalt lookups (their contents, collected earlier from the referenced
features, are abstracted as `newLookups`), shift every previously assigned
feature-map id with `adjust_if_gsub`, then register the aalt feature under
every default language system. -/
def finalize_aalt_tail (newLookups : List SomeLookup) (ctx : AaltCtx) :
    AaltCtx :=
  let ins := insert_aalt_lookups newLookups ctx.lookups.gsub
  let aalt_lookup_indices := ins.2
  let feats := ctx.features.map
    (fun kv => (kv.1, kv.2.map (·.adjust_if_gsub aalt_lookup_indices.length)))
  let feats2 := ctx.default_lang_systems.foldl
    (fun fs sys =>
      features_insert (sys.to_feature_key AALT) aalt_lookup_indices fs)
    feats
  { ctx with features := feats2,
             lookups := { ctx.lookups with gsub := ins.1 } }

/-! ## Named anchors (`compile_ctx.rs`, lines 1586–1605) -/

/-- `write_fonts` `AnchorTable`: format 1 (x, y), format 2 (x, y,
contour point), format 3 (x, y, devices).  The device payloads are never
inspected by `define_named_anchor` and are elided. -/
inductive AnchorTable
  | format1 (x y : Int)
  | format2 (x y : Int) (point : Nat)
  | format3 (x y : Int)
deriving DecidableEq, Repr

/-- The slice of `CompilationCtx` state that `define_named_anchor`
touches: the named-anchor registry (name → (anchor, definition position))
and the diagnostics. -/
structure AnchorState where
  anchor_defs : List (String × (AnchorTable × Nat))
  errors : List String
deriving DecidableEq, Repr

/-- `HashMap::insert` on the association-list model: replaces the value
under an existing key and returns the previous value. -/
def anchor_insert (name : String) (v : AnchorTable × Nat) :
    List (String × (AnchorTable × Nat)) →
      Option (AnchorTable × Nat) × List (String × (AnchorTable × Nat))
  | [] => (none, [(name, v)])
  | (n, v') :: rest =>
    if n = name then (some v', (name, v) :: rest)
    else
      let r := anchor_insert name v rest
      (r.1, (n, v') :: r.2)

/-- `define_named_anchor` (lines 1586–1605), with the anchor block already
resolved (`resolve_anchor` reports its own errors and yields `none` then).
Format-3 anchors are rejected; otherwise the anchor is inserted, and if a
previous binding existed a duplicate-definition error is pushed — after
the insertion replaced the old binding. -/
def define_named_anchor (name : String) (resolved : Option AnchorTable)
    (pos : Nat) (st : AnchorState) : AnchorState :=
  match resolved with
  | none => st
  | some a =>
    match a with
    | .format3 _ _ =>
      { st with errors := st.errors ++
          ["named anchor definition can only be in format A or B"] }
    | _ =>
      let r := anchor_insert name (a, pos) st.anchor_defs
      let st1 := { st with anchor_defs := r.2 }
      match r.1 with
      | some _ =>
        { st1 with errors := st1.errors ++ ["duplicate anchor definition"] }
      | none => st1

end FeaRs

/-! ## Helper lemmas -/

namespace FeaRs

theorem clearOpt_idem (v : Option Int) :
    (if (if v = some 0 then none else v) = some 0 then (none : Option Int)
     else if v = some 0 then none else v) = if v = some 0 then none else v := by
  rcases v with _ | n
  · simp
  · by_cases h : n = 0 <;> simp [h]

/-- `clear_zeros` is idempotent: after one pass no field is `Some(0)`. -/
theorem ValueRecord.clear_zeros_idem (r : ValueRecord) :
    r.clear_zeros.clear_zeros = r.clear_zeros := by
  rcases r with ⟨xp, yp, xa, ya, d1, d2, d3, d4⟩
  simp only [ValueRecord.clear_zeros]
  rw [ValueRecord.mk.injEq]
  exact ⟨clearOpt_idem xp, clearOpt_idem yp, clearOpt_idem xa, clearOpt_idem ya,
    rfl, rfl, rfl, rfl⟩

/-- When `is_all_zeros` holds, every present numeric field is zero and no
device is present, so clearing yields the all-`None` record. -/
theorem ValueRecord.clear_zeros_of_all_zeros (r : ValueRecord)
    (h : r.is_all_zeros = true) : r.clear_zeros = ValueRecord.empty := by
  rcases r with ⟨xp, yp, xa, ya, d1, d2, d3, d4⟩
  simp only [ValueRecord.is_all_zeros] at h
  split at h
  · exact absurd h (by simp)
  · rename_i hcond
    simp only [ValueRecord.format_is_empty, ValueRecord.has_device,
      Bool.or_eq_true, not_or] at hcond
    simp only [List.all_cons, List.all_nil, Bool.and_eq_true, beq_iff_eq] at h
    obtain ⟨hxp, hyp, hxa, hya, _⟩ := h
    have hd : d1 = false ∧ d2 = false ∧ d3 = false ∧ d4 = false := by
      rcases hcond with ⟨_, hdev⟩
      simp only [Bool.or_eq_true, not_or, Bool.not_eq_true] at hdev
      exact ⟨hdev.1.1.1, hdev.1.1.2, hdev.1.2, hdev.2⟩
    have clearZero : ∀ v : Option Int, v.getD 0 = 0 →
        (if v = some 0 then none else v) = none := by
      intro v hv
      rcases v with _ | n
      · simp
      · simp only [Option.getD_some] at hv
        simp [hv]
    simp only [ValueRecord.clear_zeros, ValueRecord.empty, ValueRecord.mk.injEq]
    exact ⟨clearZero xp hxp, clearZero yp hyp, clearZero xa hxa, clearZero ya hya,
      hd.1, hd.2.1, hd.2.2.1, hd.2.2.2⟩

/-- Closed form of `for_pair_pos`. -/
theorem ValueRecord.for_pair_pos_eq (r : ValueRecord) (vert : Bool) :
    r.for_pair_pos vert =
      if r.is_all_zeros then ValueRecord.zero_advance_record vert
      else r.clear_zeros := by
  by_cases h : r.is_all_zeros = true
  · have hc := ValueRecord.clear_zeros_of_all_zeros r h
    simp only [ValueRecord.for_pair_pos, h, hc]
    cases vert <;> rfl
  · simp only [Bool.not_eq_true] at h
    simp [ValueRecord.for_pair_pos, h]

theorem LookupId.eq_of_variantIdx_idx_eq {a b : LookupId}
    (hv : a.variantIdx = b.variantIdx) (hi : a.idx = b.idx) : a = b := by
  cases a <;> cases b <;> simp_all [LookupId.variantIdx, LookupId.idx]

theorem LookupId.le_antisymm {a b : LookupId}
    (hab : LookupId.le a b) (hba : LookupId.le b a) : a = b := by
  rcases hab with h | ⟨hv, hi⟩ <;> rcases hba with h' | ⟨hv', hi'⟩
  · omega
  · omega
  · omega
  · exact LookupId.eq_of_variantIdx_idx_eq hv (Nat.le_antisymm hi hi')

theorem dedupConsec_sublist {α : Type} [DecidableEq α] :
    ∀ l : List α, (dedupConsec l).Sublist l
  | [] => List.Sublist.refl _
  | [a] => List.Sublist.refl _
  | a :: b :: rest => by
    unfold dedupConsec
    split
    · exact (dedupConsec_sublist (b :: rest)).cons a
    · exact (dedupConsec_sublist (b :: rest)).cons₂ a

theorem mem_dedupConsec {α : Type} [DecidableEq α] :
    ∀ (l : List α) (x : α), x ∈ dedupConsec l ↔ x ∈ l
  | [], x => Iff.rfl
  | [a], x => Iff.rfl
  | a :: b :: rest, x => by
    unfold dedupConsec
    split
    · rename_i h
      subst h
      rw [mem_dedupConsec (a :: rest)]
      simp
    · simp only [List.mem_cons]
      rw [mem_dedupConsec (b :: rest)]
      simp

/-- On a list sorted by `LookupId.le`, adjacent deduplication yields a
strictly increasing (hence duplicate-free) list. -/
theorem pairwise_strict_dedupConsec :
    ∀ l : List LookupId, l.Pairwise LookupId.le →
      (dedupConsec l).Pairwise (fun a b => LookupId.le a b ∧ a ≠ b)
  | [], _ => List.Pairwise.nil
  | [a], _ => by simp [dedupConsec]
  | a :: b :: rest, h => by
    rw [List.pairwise_cons] at h
    obtain ⟨ha, h'⟩ := h
    unfold dedupConsec
    split
    · rename_i hab
      subst hab
      exact pairwise_strict_dedupConsec (a :: rest) h'
    · rename_i hab
      rw [List.pairwise_cons]
      refine ⟨?_, pairwise_strict_dedupConsec (b :: rest) h'⟩
      intro x hx
      have hxmem : x ∈ b :: rest := (mem_dedupConsec _ _).mp hx
      have hax : LookupId.le a x := ha x hxmem
      refine ⟨hax, ?_⟩
      rcases List.mem_cons.mp hxmem with hxb | hxrest
      · subst hxb; exact hab
      · intro haeq
        rw [List.pairwise_cons] at h'
        have hbx : LookupId.le b x := h'.1 x hxrest
        apply hab
        exact LookupId.le_antisymm (ha b (List.mem_cons_self b rest)) (haeq ▸ hbx)

theorem sequence_enumerator_impl_eq (right : List GlyphOrClass) :
    ∀ (pfx : List GlyphId) (left : GlyphOrClass),
      sequence_enumerator_impl pfx left right =
        (spec_cartesian (left :: right)).map (pfx ++ ·) := by
  induction right with
  | nil =>
    intro pfx left
    show left.iter.map (fun glyph => pfx ++ [glyph]) =
      ((spec_cartesian [left]).map (pfx ++ ·))
    rw [show spec_cartesian [left] = left.iter.flatMap (fun g => [[g]]) from rfl,
      List.map_flatMap]
    simp [List.map_eq_flatMap]
  | cons head tail ih =>
    intro pfx left
    show left.iter.flatMap
        (fun g => sequence_enumerator_impl (pfx ++ [g]) head tail) =
      (spec_cartesian (left :: head :: tail)).map (pfx ++ ·)
    rw [show spec_cartesian (left :: head :: tail) =
        left.iter.flatMap
          (fun g => (spec_cartesian (head :: tail)).map (g :: ·)) from rfl,
      List.map_flatMap]
    refine congrArg (List.flatMap left.iter) (funext fun g => ?_)
    rw [ih, List.map_map]
    refine congrArg
      (fun h => List.map h (spec_cartesian (head :: tail))) (funext fun t => ?_)
    simp

theorem assocFind_append_self {α β : Type} [DecidableEq α] (k : α) (v : β) :
    ∀ st : List (α × β), assocFind k st = none →
      assocFind k (st ++ [(k, v)]) = some v
  | [], _ => by simp [assocFind]
  | (k', v') :: rest, h => by
    by_cases hk : k' = k
    · rw [show assocFind k ((k', v') :: rest) = some v' from by
        simp [assocFind, hk]] at h
      cases h
    · have h' : assocFind k rest = none := by simpa [assocFind, hk] using h
      simpa [assocFind, hk] using assocFind_append_self k v rest h'

theorem assocFind_eq_none_of_forall {α β : Type} [DecidableEq α] (k : α) :
    ∀ l : List (α × β), (∀ p ∈ l, p.1 ≠ k) → assocFind k l = none
  | [], _ => rfl
  | (k', v) :: rest, h => by
    have hk : k' ≠ k := h (k', v) (List.mem_cons_self _ _)
    simp [assocFind, hk,
      assocFind_eq_none_of_forall k rest
        (fun p hp => h p (List.mem_cons_of_mem _ hp))]

/-- Closed form of `resolve_mark_attach_class` when the sorted set is new
to the map. -/
theorem resolve_mark_attach_class_not_found (glyphs : List GlyphId)
    (st : List (List GlyphId × Nat))
    (h : assocFind (sortAndDedupeClass glyphs) st = none) :
    resolve_mark_attach_class glyphs st =
      ((st.length % 65536 + 1) % 65536,
        st ++ [(sortAndDedupeClass glyphs,
          (st.length % 65536 + 1) % 65536)]) := by
  unfold resolve_mark_attach_class
  show (match assocFind (sortAndDedupeClass glyphs) st with
    | some id => (id, st)
    | none => ((st.length % 65536 + 1) % 65536,
        st ++ [(sortAndDedupeClass glyphs,
          (st.length % 65536 + 1) % 65536)])) =
    ((st.length % 65536 + 1) % 65536,
      st ++ [(sortAndDedupeClass glyphs, (st.length % 65536 + 1) % 65536)])
  rw [h]

theorem denseFrom_append (start : Nat) (st : List (List GlyphId × Nat))
    (k : List GlyphId) (h : denseFrom start st) :
    denseFrom start (st ++ [(k, st.length + start)]) := by
  unfold denseFrom at *
  simp [List.range_succ, h]

theorem assocFind_features_insert_self (k : FeatureKey) (v : List LookupId) :
    ∀ fs, assocFind k (features_insert k v fs) = some v
  | [] => by simp [features_insert, assocFind]
  | (k', v') :: rest => by
    by_cases hk : k' = k
    · simp [features_insert, hk, assocFind]
    · simp [features_insert, hk, assocFind,
        assocFind_features_insert_self k v rest]

theorem assocFind_features_insert_ne (k k' : FeatureKey) (v : List LookupId)
    (h : k' ≠ k) :
    ∀ fs, assocFind k (features_insert k' v fs) = assocFind k fs
  | [] => by simp [features_insert, assocFind, h]
  | (k'', v'') :: rest => by
    by_cases hk : k'' = k'
    · subst hk
      simp only [features_insert, if_pos rfl]
      simp [assocFind, h]
    · simp only [features_insert, if_neg hk]
      by_cases hk2 : k'' = k
      · simp [assocFind, hk2]
      · simp [assocFind, hk2, assocFind_features_insert_ne k k' v h rest]

theorem assocFind_foldl_insert_preserve (tag : Tag) (v : List LookupId) :
    ∀ (syss : List LanguageSystem) (fs : List (FeatureKey × List LookupId))
      (k : FeatureKey), assocFind k fs = some v →
      assocFind k (syss.foldl
        (fun fs s => features_insert (s.to_feature_key tag) v fs) fs) = some v
  | [], _, _, h => h
  | s :: rest, fs, k, h => by
    rw [List.foldl_cons]
    apply assocFind_foldl_insert_preserve tag v rest _ k
    by_cases hk : s.to_feature_key tag = k
    · rw [hk, assocFind_features_insert_self]
    · rw [assocFind_features_insert_ne k _ v hk]
      exact h

theorem assocFind_foldl_insert_of_mem (tag : Tag) (v : List LookupId) :
    ∀ (syss : List LanguageSystem) (fs : List (FeatureKey × List LookupId))
      (sys : LanguageSystem), sys ∈ syss →
      assocFind (sys.to_feature_key tag) (syss.foldl
        (fun fs s => features_insert (s.to_feature_key tag) v fs) fs) = some v
  | [], _, _, h => absurd h (by simp)
  | s :: rest, fs, sys, h => by
    rw [List.foldl_cons]
    rcases List.mem_cons.mp h with he | hm
    · subst he
      exact assocFind_foldl_insert_preserve tag v rest _ _
        (assocFind_features_insert_self _ v fs)
    · exact assocFind_foldl_insert_of_mem tag v rest _ sys hm

theorem assocFind_foldl_insert_other (tag : Tag) (v : List LookupId) :
    ∀ (syss : List LanguageSystem) (fs : List (FeatureKey × List LookupId))
      (k : FeatureKey), k.feature ≠ tag →
      assocFind k (syss.foldl
        (fun fs s => features_insert (s.to_feature_key tag) v fs) fs) =
        assocFind k fs
  | [], _, _, _ => rfl
  | s :: rest, fs, k, h => by
    rw [List.foldl_cons,
      assocFind_foldl_insert_other tag v rest _ k h]
    apply assocFind_features_insert_ne
    intro he
    exact h (by rw [← he]; rfl)

theorem assocFind_map_values {α β γ : Type} [DecidableEq α] (f : β → γ)
    (k : α) :
    ∀ fs : List (α × β),
      assocFind k (fs.map (fun kv => (kv.1, f kv.2))) = (assocFind k fs).map f
  | [] => rfl
  | (k', v) :: rest => by
    by_cases hk : k' = k <;>
      simp [assocFind, hk, assocFind_map_values f k rest]

theorem anchor_insert_found (name : String) (v v' : AnchorTable × Nat) :
    ∀ defs, assocFind name defs = some v' →
      (anchor_insert name v defs).1 = some v' ∧
      assocFind name (anchor_insert name v defs).2 = some v
  | [], h => by cases h
  | (n, w) :: rest, h => by
    by_cases hn : n = name
    · subst hn
      have hw : w = v' := by simpa [assocFind] using h
      subst hw
      simp [anchor_insert, assocFind]
    · have h' : assocFind name rest = some v' := by
        simpa [assocFind, hn] using h
      have ih := anchor_insert_found name v v' rest h'
      simp [anchor_insert, hn, assocFind, ih.1, ih.2]

/-- The enumeration is lexicographically sorted: for classes whose members
are strictly increasing (member order = numeric order), consecutive output
tuples are strictly increasing in the lexicographic order on glyph-id
lists. -/
theorem spec_cartesian_pairwise_lex :
    ∀ s : List GlyphOrClass, (∀ cl ∈ s, List.Pairwise (· < ·) cl.iter) →
      List.Pairwise (List.Lex (· < ·)) (spec_cartesian s)
  | [], _ => by simp [spec_cartesian]
  | c :: rest, h => by
    have ih := spec_cartesian_pairwise_lex rest
      (fun cl hcl => h cl (List.mem_cons_of_mem c hcl))
    have hc := h c (List.mem_cons_self c rest)
    show List.Pairwise _
      (c.iter.flatMap fun g => (spec_cartesian rest).map (g :: ·))
    rw [show (c.iter.flatMap fun g => (spec_cartesian rest).map (g :: ·)) =
      (c.iter.map fun g => (spec_cartesian rest).map (g :: ·)).flatten from rfl]
    rw [List.pairwise_flatten]
    constructor
    · intro l' hl'
      obtain ⟨g, _, rfl⟩ := List.mem_map.mp hl'
      exact ih.map (g :: ·) (fun a b hab => List.Lex.cons hab)
    · rw [List.pairwise_map]
      refine hc.imp_of_mem ?_
      intro g1 g2 _ _ h12 x hx y hy
      obtain ⟨t1, _, rfl⟩ := List.mem_map.mp hx
      obtain ⟨t2, _, rfl⟩ := List.mem_map.mp hy
      exact List.Lex.rel h12

theorem spec_cartesian_length (s : List GlyphOrClass) :
    (spec_cartesian s).length = (s.map (fun c => c.iter.length)).prod := by
  induction s with
  | nil => simp [spec_cartesian]
  | cons c rest ih =>
    show (c.iter.flatMap (fun g => (spec_cartesian rest).map (g :: ·))).length =
      ((c :: rest).map (fun c => c.iter.length)).prod
    rw [List.length_flatMap]
    simp only [Function.comp_def, List.length_map, ih]
    simp [Nat.mul_comm]

end FeaRs

/-- C5: a single-substitution rule whose target resolves to NULL pushes
exactly the error 'NULL is not a valid substitution target' and adds no
rule; the state is otherwise untouched, so the walk simply continues. -/
theorem c5_null_target (replace : Option FeaRs.GlyphOrClass)
    (st : FeaRs.SubState) :
    FeaRs.add_single_sub .null replace st =
      { st with errors :=
          st.errors ++ ["NULL is not a valid substitution target"] } := by
  rfl

/-- C6: a single-substitution rule with a valid (non-NULL) target and a
NULL replacement emits one GSUB type-2 rule with an empty replacement
sequence per target glyph — and nothing else (in particular no type-1
rule, and no diagnostic). -/
theorem c6_null_replacement (target : FeaRs.GlyphOrClass)
    (st : FeaRs.SubState) (h : target ≠ .null) :
    FeaRs.add_single_sub target (some .null) st =
      { st with rules :=
          st.rules ++ target.iter.map (fun g => .type2 g []) } := by
  cases target with
  | glyph g => rfl
  | cls gs => rfl
  | null => exact absurd rfl h

/-- C6 witness: deleting glyph `A` (id 5): `sub A by NULL` adds the single
type-2 rule `5 → []`. -/
theorem c6_null_replacement_witness :
    FeaRs.add_single_sub (.glyph 5) (some .null) ⟨[], []⟩ =
      ⟨[], [.type2 5 []]⟩ :=
  c6_null_replacement (.glyph 5) ⟨[], []⟩ (by decide)

/-- C1 (counterexample): the final per-feature list is sorted, not kept in
insertion order.  For scenario 6 of the spec (`lookup X {…} X; feature xyz
{ sub c by d; lookup X; } xyz;`), X is finalized first and gets GSUB id 0,
the in-feature lookup gets GSUB id 1, and the feature's insertion-order
list puts the in-feature id first; `sort_and_dedupe_lookups` reorders it to
`[gsub 0, gsub 1]`, so X's id ends up *before* the in-feature id,
contradicting both the no-reordering clause and the scenario clause. -/
theorem c1_counterexample :
    FeaRs.sort_and_dedupe_lookups
        [(⟨"DFLT", "dflt", "xyz"⟩, [.gsub 1, .gsub 0])] =
      [(⟨"DFLT", "dflt", "xyz"⟩, [.gsub 0, .gsub 1])] ∧
    [FeaRs.LookupId.gsub 0, .gsub 1] ≠
      FeaRs.dedupKeepOrder [.gsub 1, .gsub 0] := by
  constructor
  · decide
  · decide

/-- C1 (amended): after `sort_and_dedupe_lookups`, each feature key's list
is the duplicate-free *sorted* version of the insertion-order list of
lookup ids added to that feature: strictly increasing in the lookup-id
order and containing exactly the inserted ids.  (Insertion order is not
preserved; in scenario 6 the referenced lookup X's id, assigned first,
precedes the in-feature lookup's id.) -/
theorem c1_sort_and_dedupe (feats : List (FeaRs.FeatureKey × List FeaRs.LookupId))
    (k : FeaRs.FeatureKey) (ids : List FeaRs.LookupId)
    (h : (k, ids) ∈ feats) :
    ∃ out, (k, out) ∈ FeaRs.sort_and_dedupe_lookups feats ∧
      out.Pairwise (fun a b => FeaRs.LookupId.le a b ∧ a ≠ b) ∧
      ∀ x, x ∈ out ↔ x ∈ ids := by
  refine ⟨FeaRs.dedupConsec (List.insertionSort FeaRs.LookupId.le ids), ?_, ?_, ?_⟩
  · exact List.mem_map_of_mem _ h
  · exact FeaRs.pairwise_strict_dedupConsec _
      (List.sorted_insertionSort FeaRs.LookupId.le ids)
  · intro x
    rw [FeaRs.mem_dedupConsec]
    exact (List.perm_insertionSort FeaRs.LookupId.le ids).mem_iff

/-- C1 witness: the amended theorem applied at the scenario-6 feature map. -/
theorem c1_sort_and_dedupe_witness :
    ∃ out,
      (⟨⟨"DFLT", "dflt", "xyz"⟩, out⟩ : FeaRs.FeatureKey × List FeaRs.LookupId) ∈
        FeaRs.sort_and_dedupe_lookups
          [(⟨"DFLT", "dflt", "xyz"⟩, [.gsub 1, .gsub 0])] ∧
      out.Pairwise (fun a b => FeaRs.LookupId.le a b ∧ a ≠ b) ∧
      ∀ x, x ∈ out ↔ x ∈ [FeaRs.LookupId.gsub 1, .gsub 0] :=
  c1_sort_and_dedupe [(⟨"DFLT", "dflt", "xyz"⟩, [.gsub 1, .gsub 0])]
    ⟨"DFLT", "dflt", "xyz"⟩ [.gsub 1, .gsub 0] (by decide)

/-- C2 (amended): `clear_zeros` is idempotent, and `for_pair_pos(R, vert)`
is `clear_zeros(R)` whenever `R` is *not* "all zeros" (that is, when `R` is
the null record with no fields set, carries a device table, or has a
non-zero numeric field); when `R` is all zeros (at least one numeric field
set, every set field zero, no device fields), the result is the record
whose only set field is a zero advance on the dominant axis. -/
theorem c2_value_record_normalization (R : FeaRs.ValueRecord) (vert : Bool) :
    R.clear_zeros.clear_zeros = R.clear_zeros ∧
    (R.is_all_zeros = false → R.for_pair_pos vert = R.clear_zeros) ∧
    (R.is_all_zeros = true →
      R.for_pair_pos vert = FeaRs.ValueRecord.zero_advance_record vert) := by
  refine ⟨FeaRs.ValueRecord.clear_zeros_idem R, ?_, ?_⟩
  · intro h
    rw [FeaRs.ValueRecord.for_pair_pos_eq]
    simp [h]
  · intro h
    rw [FeaRs.ValueRecord.for_pair_pos_eq]
    simp [h]

/-- C2 witness: the amended theorem at the all-zero record `<0 0 0 0>`-like
input (only `x_placement = Some(0)`), horizontal mode. -/
theorem c2_value_record_normalization_witness :
    (⟨some 0, none, none, none, false, false, false, false⟩ :
        FeaRs.ValueRecord).for_pair_pos false =
      FeaRs.ValueRecord.zero_advance_record false :=
  (c2_value_record_normalization
    ⟨some 0, none, none, none, false, false, false, false⟩ false).2.2 (by decide)

/-- C2 (counterexample): the claim fails at the all-`None` (null) record
`R0`: `R0` has no non-zero field, so the claim requires
`for_pair_pos(R0, false)` to be the single-zero-x-advance record, but
`is_all_zeros(R0)` is `false` (its format is empty) and the code returns
`R0` itself. -/
theorem c2_counterexample :
    FeaRs.ValueRecord.has_any_nonzero_field FeaRs.ValueRecord.empty = false ∧
    FeaRs.ValueRecord.for_pair_pos FeaRs.ValueRecord.empty false =
      FeaRs.ValueRecord.empty ∧
    FeaRs.ValueRecord.for_pair_pos FeaRs.ValueRecord.empty false ≠
      FeaRs.ValueRecord.zero_advance_record false := by
  refine ⟨by decide, by decide, by decide⟩

/-- C7: for a sequence of at least two glyph-or-classes (the source asserts
this bound), the sequence enumerator produces exactly the cartesian product
of the classes — `|C0|·|C1|·…·|Cn|` glyph-id tuples — its output equals
the spec's lexicographic enumeration (first position slowest, members in
class source order), and for strictly increasing classes consecutive
tuples are strictly lexicographically increasing. -/
theorem c7_sequence_enumerator (s : List FeaRs.GlyphOrClass) (h : 2 ≤ s.length) :
    FeaRs.sequence_enumerator s = FeaRs.spec_cartesian s ∧
    (FeaRs.sequence_enumerator s).length =
      (s.map (fun c => c.iter.length)).prod ∧
    ((∀ cl ∈ s, List.Pairwise (· < ·) cl.iter) →
      List.Pairwise (List.Lex (· < ·)) (FeaRs.sequence_enumerator s)) := by
  match s, h with
  | left :: right, _ =>
    have he : FeaRs.sequence_enumerator (left :: right) =
        FeaRs.spec_cartesian (left :: right) := by
      show FeaRs.sequence_enumerator_impl [] left right = _
      rw [FeaRs.sequence_enumerator_impl_eq]
      simp
    refine ⟨he, by rw [he, FeaRs.spec_cartesian_length], ?_⟩
    intro hs
    rw [he]
    exact FeaRs.spec_cartesian_pairwise_lex (left :: right) hs

/-- C7 witness: the source's own smoke-test input
`[glyph 1, class [2 3 4], class [8 9]]`: six tuples, in product order. -/
theorem c7_sequence_enumerator_witness :
    FeaRs.sequence_enumerator [.glyph 1, .cls [2, 3, 4], .cls [8, 9]] =
      FeaRs.spec_cartesian [.glyph 1, .cls [2, 3, 4], .cls [8, 9]] ∧
    (FeaRs.sequence_enumerator [.glyph 1, .cls [2, 3, 4], .cls [8, 9]]).length =
      ([FeaRs.GlyphOrClass.glyph 1, .cls [2, 3, 4], .cls [8, 9]].map
        (fun c => c.iter.length)).prod ∧
    ((∀ cl ∈ [FeaRs.GlyphOrClass.glyph 1, .cls [2, 3, 4], .cls [8, 9]],
        List.Pairwise (· < ·) cl.iter) →
      List.Pairwise (List.Lex (· < ·))
        (FeaRs.sequence_enumerator [.glyph 1, .cls [2, 3, 4], .cls [8, 9]])) :=
  c7_sequence_enumerator [.glyph 1, .cls [2, 3, 4], .cls [8, 9]] (by decide)

/-- C9: for a state-independent resolver, the lookahead sequence resolves
to the source-order list while the backtrack sequence resolves to its
reverse; elementwise, position `i` of the stored backtrack holds the
resolution of source position `len - 1 - i`. -/
theorem c9_backtrack_reversed {σ τ : Type}
    (resolve : σ → τ → FeaRs.GlyphOrClass × σ) (f : τ → FeaRs.GlyphOrClass)
    (st : σ) (seq : List τ) (i : Nat)
    (hres : ∀ s x, resolve s x = (f x, s)) (hi : i < seq.length) :
    (FeaRs.resolve_lookahead_sequence resolve st seq).1 = seq.map f ∧
    (FeaRs.resolve_backtrack_sequence resolve st seq).1 = (seq.map f).reverse ∧
    (FeaRs.resolve_backtrack_sequence resolve st seq).1[i]? =
      (seq[seq.length - 1 - i]?).map f := by
  have hla : ∀ (st : σ) (seq : List τ),
      (FeaRs.resolve_lookahead_sequence resolve st seq).1 = seq.map f := by
    intro st seq
    induction seq generalizing st with
    | nil => rfl
    | cons x rest ih => simp [FeaRs.resolve_lookahead_sequence, hres, ih]
  have hb : (FeaRs.resolve_backtrack_sequence resolve st seq).1 =
      (seq.map f).reverse := by
    simp [FeaRs.resolve_backtrack_sequence, hla]
  refine ⟨hla st seq, hb, ?_⟩
  rw [hb, List.getElem?_reverse (by simpa using hi), List.length_map,
    List.getElem?_map]

/-- C9 witness: resolving `[7, 8, 9]` (as single glyphs) gives lookahead
`[7, 8, 9]` and backtrack `[9, 8, 7]`; index 0 of the backtrack holds the
resolution of source index 2. -/
theorem c9_backtrack_reversed_witness :
    (FeaRs.resolve_lookahead_sequence
        (fun (s : Nat) (x : Nat) => (FeaRs.GlyphOrClass.glyph x, s)) 0
        [7, 8, 9]).1 = [7, 8, 9].map (fun x => FeaRs.GlyphOrClass.glyph x) ∧
    (FeaRs.resolve_backtrack_sequence
        (fun (s : Nat) (x : Nat) => (FeaRs.GlyphOrClass.glyph x, s)) 0
        [7, 8, 9]).1 =
      ([7, 8, 9].map (fun x => FeaRs.GlyphOrClass.glyph x)).reverse ∧
    (FeaRs.resolve_backtrack_sequence
        (fun (s : Nat) (x : Nat) => (FeaRs.GlyphOrClass.glyph x, s)) 0
        [7, 8, 9]).1[0]? =
      ([7, 8, 9][[7, 8, 9].length - 1 - 0]?).map
        (fun x => FeaRs.GlyphOrClass.glyph x) :=
  c9_backtrack_reversed (fun s x => (FeaRs.GlyphOrClass.glyph x, s))
    (fun x => FeaRs.GlyphOrClass.glyph x) 0 [7, 8, 9] 0
    (fun s x => rfl) (by decide)

/-- C8: processing `script S` when the current script is already `S`
returns before touching any state: the whole context — current lookup,
lookup flags, active feature's current system, required features — is
unchanged. -/
theorem c8_set_script_same_noop (ctx : FeaRs.ScriptCtx) (s : FeaRs.Tag)
    (h : ctx.script = some s) :
    ctx.set_script s = some ctx := by
  unfold FeaRs.ScriptCtx.set_script
  rw [h]
  simp

/-- C8 witness: a context mid-feature, with a current lookup, non-empty
flags, and script `latn`; `script latn` leaves it untouched. -/
theorem c8_set_script_same_noop_witness :
    FeaRs.ScriptCtx.set_script
      ⟨some "latn", ⟨7, some 2⟩,
        ⟨some ⟨.gsubType 4, ⟨7, some 2⟩, none⟩, [], []⟩,
        some ⟨"liga", ⟨"latn", "dflt"⟩, [(⟨"latn", "dflt"⟩, .gsub 0)]⟩, []⟩
      "latn" =
      some ⟨some "latn", ⟨7, some 2⟩,
        ⟨some ⟨.gsubType 4, ⟨7, some 2⟩, none⟩, [], []⟩,
        some ⟨"liga", ⟨"latn", "dflt"⟩, [(⟨"latn", "dflt"⟩, .gsub 0)]⟩, []⟩ :=
  c8_set_script_same_noop
    ⟨some "latn", ⟨7, some 2⟩,
      ⟨some ⟨.gsubType 4, ⟨7, some 2⟩, none⟩, [], []⟩,
      some ⟨"liga", ⟨"latn", "dflt"⟩, [(⟨"latn", "dflt"⟩, .gsub 0)]⟩, []⟩
    "latn" rfl

/-- C3: after aalt finalization, the materialized aalt lookups sit as a
contiguous block at the front of the GSUB lookup list; `adjust_if_gsub`
shifts every GSUB id by exactly the number of inserted lookups and leaves
GPOS ids unchanged; every non-aalt feature key's list is its old list with
that shift applied; and the aalt key is present (bound to the new front
ids) for every default language system. -/
theorem c3_finalize_aalt (ctx : FeaRs.AaltCtx)
    (newLookups : List FeaRs.SomeLookup) (sys : FeaRs.LanguageSystem)
    (k : FeaRs.FeatureKey) (ids : List FeaRs.LookupId)
    (hsys : sys ∈ ctx.default_lang_systems)
    (hk : FeaRs.assocFind k ctx.features = some ids)
    (hfeat : k.feature ≠ FeaRs.AALT) :
    (FeaRs.finalize_aalt_tail newLookups ctx).lookups.gsub =
      newLookups ++ ctx.lookups.gsub ∧
    (∀ i, FeaRs.LookupId.adjust_if_gsub (.gsub i) newLookups.length =
      .gsub (i + newLookups.length)) ∧
    (∀ i, FeaRs.LookupId.adjust_if_gsub (.gpos i) newLookups.length =
      .gpos i) ∧
    FeaRs.assocFind (sys.to_feature_key FeaRs.AALT)
        (FeaRs.finalize_aalt_tail newLookups ctx).features =
      some ((List.range newLookups.length).map FeaRs.LookupId.gsub) ∧
    FeaRs.assocFind k (FeaRs.finalize_aalt_tail newLookups ctx).features =
      some (ids.map (·.adjust_if_gsub newLookups.length)) := by
  refine ⟨rfl, fun i => rfl, fun i => rfl, ?_, ?_⟩
  · simp only [FeaRs.finalize_aalt_tail, FeaRs.insert_aalt_lookups]
    exact FeaRs.assocFind_foldl_insert_of_mem FeaRs.AALT _
      ctx.default_lang_systems _ sys hsys
  · simp only [FeaRs.finalize_aalt_tail, FeaRs.insert_aalt_lookups,
      List.length_map, List.length_range]
    rw [FeaRs.assocFind_foldl_insert_other FeaRs.AALT _
      ctx.default_lang_systems _ k hfeat]
    rw [FeaRs.assocFind_map_values
      (fun ids => ids.map (·.adjust_if_gsub newLookups.length)) k ctx.features]
    rw [hk]
    rfl

/-- C3 witness: one pre-existing GSUB lookup in feature `liga` and one GPOS
id, two inserted aalt lookups, one default language system. -/
theorem c3_finalize_aalt_witness :
    (FeaRs.finalize_aalt_tail
        [⟨.gsubType 1, ⟨0, none⟩, none⟩, ⟨.gsubType 3, ⟨0, none⟩, none⟩]
        ⟨[(⟨"DFLT", "dflt", "liga"⟩, [.gsub 0, .gpos 0])],
          ⟨none, [⟨.gsubType 4, ⟨0, none⟩, none⟩], []⟩,
          [⟨"DFLT", "dflt"⟩]⟩).lookups.gsub =
      [⟨.gsubType 1, ⟨0, none⟩, none⟩, ⟨.gsubType 3, ⟨0, none⟩, none⟩] ++
        [⟨.gsubType 4, ⟨0, none⟩, none⟩] ∧
    (∀ i, FeaRs.LookupId.adjust_if_gsub (.gsub i) 2 = .gsub (i + 2)) ∧
    (∀ i, FeaRs.LookupId.adjust_if_gsub (.gpos i) 2 = .gpos i) ∧
    FeaRs.assocFind
        ((⟨"DFLT", "dflt"⟩ : FeaRs.LanguageSystem).to_feature_key FeaRs.AALT)
        (FeaRs.finalize_aalt_tail
          [⟨.gsubType 1, ⟨0, none⟩, none⟩, ⟨.gsubType 3, ⟨0, none⟩, none⟩]
          ⟨[(⟨"DFLT", "dflt", "liga"⟩, [.gsub 0, .gpos 0])],
            ⟨none, [⟨.gsubType 4, ⟨0, none⟩, none⟩], []⟩,
            [⟨"DFLT", "dflt"⟩]⟩).features =
      some ((List.range 2).map FeaRs.LookupId.gsub) ∧
    FeaRs.assocFind (⟨"DFLT", "dflt", "liga"⟩ : FeaRs.FeatureKey)
        (FeaRs.finalize_aalt_tail
          [⟨.gsubType 1, ⟨0, none⟩, none⟩, ⟨.gsubType 3, ⟨0, none⟩, none⟩]
          ⟨[(⟨"DFLT", "dflt", "liga"⟩, [.gsub 0, .gpos 0])],
            ⟨none, [⟨.gsubType 4, ⟨0, none⟩, none⟩], []⟩,
            [⟨"DFLT", "dflt"⟩]⟩).features =
      some ([FeaRs.LookupId.gsub 0, .gpos 0].map (·.adjust_if_gsub 2)) :=
  c3_finalize_aalt
    ⟨[(⟨"DFLT", "dflt", "liga"⟩, [.gsub 0, .gpos 0])],
      ⟨none, [⟨.gsubType 4, ⟨0, none⟩, none⟩], []⟩, [⟨"DFLT", "dflt"⟩]⟩
    [⟨.gsubType 1, ⟨0, none⟩, none⟩, ⟨.gsubType 3, ⟨0, none⟩, none⟩]
    ⟨"DFLT", "dflt"⟩ ⟨"DFLT", "dflt", "liga"⟩ [.gsub 0, .gpos 0]
    (by decide) (by decide) (by decide)

/-- C4 (counterexample): defining the named anchor `top` twice emits the
duplicate-definition error, but the registry binding is *replaced* by the
second definition — it is not unchanged as the claim states. -/
theorem c4_counterexample :
    FeaRs.assocFind "top"
        (FeaRs.define_named_anchor "top" (some (.format1 1 2)) 0
          ⟨[], []⟩).anchor_defs = some (.format1 1 2, 0) ∧
    FeaRs.assocFind "top"
        (FeaRs.define_named_anchor "top" (some (.format1 3 4)) 10
          (FeaRs.define_named_anchor "top" (some (.format1 1 2)) 0
            ⟨[], []⟩)).anchor_defs = some (.format1 3 4, 10) ∧
    (FeaRs.define_named_anchor "top" (some (.format1 3 4)) 10
        (FeaRs.define_named_anchor "top" (some (.format1 1 2)) 0
          ⟨[], []⟩)).errors = ["duplicate anchor definition"] := by
  refine ⟨by decide, by decide, by decide⟩

/-- C4 (amended): redefining an already-defined anchor name (with a
format-1/2 anchor) pushes exactly the 'duplicate anchor definition' error
*and replaces* the stored binding with the new anchor — the registry is
last-write-wins, not append-only (compilation still fails because of the
error). -/
theorem c4_duplicate_anchor (name : String) (a prev : FeaRs.AnchorTable)
    (pos prevPos : Nat) (st : FeaRs.AnchorState)
    (hprev : FeaRs.assocFind name st.anchor_defs = some (prev, prevPos))
    (hfmt : ∀ x y, a ≠ .format3 x y) :
    (FeaRs.define_named_anchor name (some a) pos st).errors =
      st.errors ++ ["duplicate anchor definition"] ∧
    FeaRs.assocFind name
        (FeaRs.define_named_anchor name (some a) pos st).anchor_defs =
      some (a, pos) := by
  obtain ⟨hf, hfind⟩ := FeaRs.anchor_insert_found name (a, pos) (prev, prevPos)
    st.anchor_defs hprev
  cases a with
  | format3 x y => exact absurd rfl (hfmt x y)
  | format1 x y =>
    simp only [FeaRs.define_named_anchor]
    rw [hf]
    exact ⟨rfl, hfind⟩
  | format2 x y p =>
    simp only [FeaRs.define_named_anchor]
    rw [hf]
    exact ⟨rfl, hfind⟩

/-- C4 witness: the amended theorem at the concrete duplicate definition
of `top`. -/
theorem c4_duplicate_anchor_witness :
    (FeaRs.define_named_anchor "top" (some (.format1 3 4)) 10
        ⟨[("top", (.format1 1 2, 0))], []⟩).errors =
      [] ++ ["duplicate anchor definition"] ∧
    FeaRs.assocFind "top"
        (FeaRs.define_named_anchor "top" (some (.format1 3 4)) 10
          ⟨[("top", (.format1 1 2, 0))], []⟩).anchor_defs =
      some (.format1 3 4, 10) :=
  c4_duplicate_anchor "top" (.format1 3 4) (.format1 1 2) 10 0
    ⟨[("top", (.format1 1 2, 0))], []⟩ (by decide)
    (fun x y => by simp)

/-- C10 (counterexample): mark-attachment-class ids are *not* dense from 1
unconditionally: at the (reachable) map holding 2^16 − 1 distinct classes
with ids 1 … 65535, the next fresh class is assigned
`(65535 as u16) + 1 = 0` — the id computation wraps — so the resulting
map is no longer dense from 1 (the claim demands id 65536). -/
theorem c10_counterexample :
    FeaRs.denseFrom 1 FeaRs.bigAttachState ∧
    FeaRs.bigAttachState.length + 1 = 65536 ∧
    (FeaRs.resolve_mark_attach_class [65535] FeaRs.bigAttachState).1 = 0 ∧
    ¬ FeaRs.denseFrom 1
        (FeaRs.resolve_mark_attach_class [65535] FeaRs.bigAttachState).2 := by
  have hlen : FeaRs.bigAttachState.length = 65535 := by
    simp [FeaRs.bigAttachState]
  have hfun : (Prod.snd ∘ (fun i : Nat => (([i] : List FeaRs.GlyphId), i + 1))) =
      (· + 1) := funext fun i => rfl
  have hdense : FeaRs.denseFrom 1 FeaRs.bigAttachState := by
    unfold FeaRs.denseFrom FeaRs.bigAttachState
    rw [List.map_map, List.length_map, List.length_range, hfun]
  have hsd : FeaRs.sortAndDedupeClass [65535] = [65535] := rfl
  have hnone : FeaRs.assocFind ([65535] : List FeaRs.GlyphId)
      FeaRs.bigAttachState = none := by
    apply FeaRs.assocFind_eq_none_of_forall
    intro p hp
    obtain ⟨i, hi, rfl⟩ := List.mem_map.mp hp
    rw [List.mem_range] at hi
    show ([i] : List FeaRs.GlyphId) ≠ [65535]
    intro he
    exact Nat.ne_of_lt hi (List.head_eq_of_cons_eq he)
  have hres : FeaRs.resolve_mark_attach_class [65535] FeaRs.bigAttachState =
      (0, FeaRs.bigAttachState ++ [([65535], 0)]) := by
    rw [FeaRs.resolve_mark_attach_class_not_found [65535] FeaRs.bigAttachState
      (by rw [hsd]; exact hnone)]
    rw [hsd, hlen]
  refine ⟨hdense, by rw [hlen], by rw [hres], ?_⟩
  rw [hres]
  show ¬ FeaRs.denseFrom 1 (FeaRs.bigAttachState ++ [([65535], 0)])
  intro h
  unfold FeaRs.denseFrom at h
  have h0 : (0 : Nat) ∈
      List.map Prod.snd (FeaRs.bigAttachState ++ [([65535], 0)]) :=
    List.mem_map_of_mem Prod.snd
      (List.mem_append_right _ (List.mem_cons_self _ _))
  rw [h] at h0
  obtain ⟨i, _, hi⟩ := List.mem_map.mp h0
  omega

/-- C10 (amended): while the id maps stay inside the 16-bit id space
(fewer than 2^16 filter sets; at most 2^16 − 2 attachment classes),
mark-filtering-set ids are assigned densely from 0 in first-observation
order and mark-attachment-class ids densely from 1; a class new to the
map gets id `len` (resp. `len + 1`); and resolving a second class equal
after sort-and-dedupe returns the same id with the map unchanged.  Beyond
those bounds the filter-set allocation panics (`try_into().unwrap()`) and
the attachment-class id wraps (see the counterexample). -/
theorem c10_mark_class_ids (stF stA : List (List FeaRs.GlyphId × Nat))
    (c c' : List FeaRs.GlyphId)
    (hsame : FeaRs.sortAndDedupeClass c' = FeaRs.sortAndDedupeClass c)
    (hF : FeaRs.denseFrom 0 stF) (hA : FeaRs.denseFrom 1 stA)
    (hlenF : stF.length < 65536) (hlenA : stA.length + 1 < 65536) :
    (∃ rF, FeaRs.resolve_mark_filter_set c stF = some rF ∧
      FeaRs.denseFrom 0 rF.2 ∧
      (FeaRs.assocFind (FeaRs.sortAndDedupeClass c) stF = none →
        rF.1 = stF.length) ∧
      FeaRs.resolve_mark_filter_set c' rF.2 = some rF) ∧
    FeaRs.denseFrom 1 (FeaRs.resolve_mark_attach_class c stA).2 ∧
    (FeaRs.assocFind (FeaRs.sortAndDedupeClass c) stA = none →
      (FeaRs.resolve_mark_attach_class c stA).1 = stA.length + 1) ∧
    FeaRs.resolve_mark_attach_class c'
        (FeaRs.resolve_mark_attach_class c stA).2 =
      FeaRs.resolve_mark_attach_class c stA := by
  have hid : (stA.length % 65536 + 1) % 65536 = stA.length + 1 := by omega
  have hid2 : (stA.length + 1) % 65536 = stA.length + 1 :=
    Nat.mod_eq_of_lt hlenA
  refine ⟨?_, ?_, ?_, ?_⟩
  · cases hfind : FeaRs.assocFind (FeaRs.sortAndDedupeClass c) stF with
    | some prev =>
      refine ⟨(prev, stF), ?_, hF, ?_, ?_⟩
      · simp [FeaRs.resolve_mark_filter_set, hfind]
      · intro hc
        exact absurd hc (Option.some_ne_none prev)
      · simp [FeaRs.resolve_mark_filter_set, hsame, hfind]
    | none =>
      refine ⟨(stF.length, stF ++ [(FeaRs.sortAndDedupeClass c, stF.length)]),
        ?_, ?_, fun _ => rfl, ?_⟩
      · simp [FeaRs.resolve_mark_filter_set, hfind, hlenF]
      · exact FeaRs.denseFrom_append 0 stF (FeaRs.sortAndDedupeClass c) hF
      · have happ := FeaRs.assocFind_append_self (FeaRs.sortAndDedupeClass c)
          stF.length stF hfind
        simp [FeaRs.resolve_mark_filter_set, hsame, happ]
  · cases hfind : FeaRs.assocFind (FeaRs.sortAndDedupeClass c) stA with
    | some prev => simpa [FeaRs.resolve_mark_attach_class, hfind] using hA
    | none =>
      simpa [FeaRs.resolve_mark_attach_class, hfind, hid, hid2] using
        FeaRs.denseFrom_append 1 stA (FeaRs.sortAndDedupeClass c) hA
  · intro hfind
    simp [FeaRs.resolve_mark_attach_class, hfind, hid, hid2]
  · cases hfind : FeaRs.assocFind (FeaRs.sortAndDedupeClass c) stA with
    | some prev =>
      simp [FeaRs.resolve_mark_attach_class, hfind, hsame]
    | none =>
      have happ := FeaRs.assocFind_append_self (FeaRs.sortAndDedupeClass c)
        ((stA.length % 65536 + 1) % 65536) stA hfind
      rw [hid] at happ
      simp [FeaRs.resolve_mark_attach_class, hfind, hsame, happ, hid, hid2]

/-- C10 witness: resolving `[3, 2, 3]` into empty maps, then `[2, 3]`
(equal after sort-and-dedupe): filter-set id 0, attachment-class id 1, no
new allocation on the second resolution. -/
theorem c10_mark_class_ids_witness :
    (∃ rF, FeaRs.resolve_mark_filter_set [3, 2, 3] [] = some rF ∧
      FeaRs.denseFrom 0 rF.2 ∧
      (FeaRs.assocFind (FeaRs.sortAndDedupeClass [3, 2, 3])
          ([] : List (List FeaRs.GlyphId × Nat)) = none →
        rF.1 = ([] : List (List FeaRs.GlyphId × Nat)).length) ∧
      FeaRs.resolve_mark_filter_set [2, 3] rF.2 = some rF) ∧
    FeaRs.denseFrom 1 (FeaRs.resolve_mark_attach_class [3, 2, 3] []).2 ∧
    (FeaRs.assocFind (FeaRs.sortAndDedupeClass [3, 2, 3])
        ([] : List (List FeaRs.GlyphId × Nat)) = none →
      (FeaRs.resolve_mark_attach_class [3, 2, 3] []).1 =
        ([] : List (List FeaRs.GlyphId × Nat)).length + 1) ∧
    FeaRs.resolve_mark_attach_class [2, 3]
        (FeaRs.resolve_mark_attach_class [3, 2, 3] []).2 =
      FeaRs.resolve_mark_attach_class [3, 2, 3] [] :=
  c10_mark_class_ids [] [] [3, 2, 3] [2, 3] (by decide) rfl rfl
    (by decide) (by decide)
